import Mathlib

/-
Verification of the tree-to-table flattening pattern of the XMLtoExcel
repository (gelenParse.py, sonucParse.py, beyannameno.py).

The embedding models:
  * an ElementTree element as `Node` (tag, text, ordered children);
  * `element.iter()` as `Node.iter` (depth-first pre-order, the element
    itself first — this is exactly ElementTree's documented order);
  * `section.findall(tag)` / `section.find(tag)` on direct children;
  * Python's `dict(zip(headers, row))` as `dictOfZip` (key order = first
    occurrence, value = last occurrence, zip truncates to the shorter list);
  * `pd.DataFrame(d, index=[0])` and `df.append(pd.DataFrame(d, index=[0]))`
    as `dfOfDict` / `dfAppend`: a one-row frame whose columns are the dict
    keys in insertion order, and appending a dict-row aligned by column
    name (exact for rows whose dict keys equal the existing columns, the
    only case the source exercises; spec section 9 declares structurally
    mismatched rows an unmodeled edge case);
  * the repeated flag-guarded flattening loop (e.g. the Belge loop,
    sonucParse.py lines 35-51, and the kalem loop, gelenParse.py lines
    112-133) as `flatten`, a fold over the row list carrying the
    header list, the header-capture flag and the optional dataframe —
    when the row list is empty the dataframe name is never bound, so the
    later `df.to_excel`/`print` raises NameError: `flatten` returns `none`;
  * the namespace-stripping loop (split each tag at the first closing
    brace, keep part 1; gelenParse.py lines 25-28, sonucParse.py lines
    9-12, beyannameno.py lines 16-20) as `stripTag`/`stripTree`: taking
    part 1 of the split raises IndexError when the tag has no namespace
    delimiter, hence the `Option`.
-/

inductive Node where
  | mk : String → Option String → List Node → Node

def Node.tag : Node → String
  | .mk t _ _ => t

def Node.text : Node → Option String
  | .mk _ x _ => x

def Node.children : Node → List Node
  | .mk _ _ c => c

-- `element.iter()`: the element itself, then every descendant,
-- depth-first pre-order (document order).
mutual
def Node.iter : Node → List Node
  | .mk t x cs => .mk t x cs :: iterList cs

def iterList : List Node → List Node
  | [] => []
  | c :: cs => Node.iter c ++ iterList cs
end

/-- A leaf element `<t>v</t>`. -/
def leaf (t v : String) : Node := .mk t (some v) []

/-- `section.findall(tag)`: all direct children with the given tag,
in document order. -/
def findall (n : Node) (t : String) : List Node :=
  n.children.filter (fun c => c.tag = t)

/-- `section.find(tag)`: the first direct child with the given tag,
`none` when there is no such child (Python returns `None`). -/
def Node.find (n : Node) (t : String) : Option Node :=
  n.children.find? (fun c => c.tag = t)

/-- A Python dict from tag to text, as an insertion-ordered association
list with unique keys. -/
abbrev Dict := List (String × Option String)

/-- One assignment `d[k] = v` into a Python dict: an existing key keeps
its position and gets the new value, a new key is appended at the end. -/
def assocUpd : Dict → String → Option String → Dict
  | [], k, v => [(k, v)]
  | (k0, v0) :: d, k, v =>
    if k0 = k then (k0, v) :: d else (k0, v0) :: assocUpd d k v

/-- `dict(zip(ks, vs))`: zip truncates to the shorter list, then the pairs
are assigned in order (so a repeated key keeps its first position and
takes its last value). -/
def dictOfZip (ks : List String) (vs : List (Option String)) : Dict :=
  (List.zip ks vs).foldl (fun d kv => assocUpd d kv.1 kv.2) []

/-- `d[q]` as first-match lookup; on a `Dict` built by `assocUpd` the keys
are unique so first match is the match. -/
def alookup : Dict → String → Option (Option String)
  | [], _ => none
  | (k, v) :: d, q => if k = q then some v else alookup d q

/-- The flattened table a sheet is written from: the column names in
order, and the data rows, each a list of cells aligned to the columns
(`none` is a NaN/empty cell). -/
structure Table where
  columns : List String
  rows : List (List (Option String))
deriving DecidableEq

/-- Read one dict-row off along a column list, by column name; a column
missing from the dict is an empty cell (pandas NaN). -/
def rowValues (cols : List String) (d : Dict) : List (Option String) :=
  cols.map (fun c => (alookup d c).join)

/-- `pd.DataFrame(d, index=[0])`: a one-row frame, columns = dict keys in
insertion order. -/
def dfOfDict (d : Dict) : Table :=
  { columns := d.map Prod.fst, rows := [d.map Prod.snd] }

/-- `df.append(pd.DataFrame(d, index=[0]))`: one more row, cells aligned
to the existing columns by name. -/
def dfAppend (t : Table) (d : Dict) : Table :=
  { columns := t.columns, rows := t.rows ++ [rowValues t.columns d] }

/-- The mutable state of one flattening loop: the header list, the
header-capture flag (`kalem_hdr_count` / `blg_hdr_count`), and the
dataframe, unbound (`none`) until the first iteration binds it. -/
structure LoopState where
  headers : List String
  hdrCount : Nat
  df : Option Table

/-- One iteration of the flattening loop body (sonucParse.py lines 35-51):
capture the headers from this row's `iter()` if the flag is still zero,
collect this row's texts in the same traversal, zip them into a dict, and
either create the dataframe or append to it. -/
def flattenStep (s : LoopState) (item : Node) : LoopState :=
  let headers := if s.hdrCount = 0 then s.headers ++ (Node.iter item).map Node.tag else s.headers
  let hdrCount := if s.hdrCount = 0 then s.hdrCount + 1 else s.hdrCount
  let row := (Node.iter item).map Node.text
  let d := dictOfZip headers row
  match s.df with
  | none => { headers := headers, hdrCount := hdrCount, df := some (dfOfDict d) }
  | some t => { headers := headers, hdrCount := hdrCount, df := some (dfAppend t d) }

/-- The whole flattening pattern for one section: run the loop over
`findall sec rowTag` from empty headers, flag 0 and an unbound dataframe.
`none` means the loop never ran, so the dataframe name is unbound and the
code fails (NameError) where the table is next used. -/
def flatten (sec : Node) (rowTag : String) : Option Table :=
  ((findall sec rowTag).foldl flattenStep
    { headers := [], hdrCount := 0, df := none }).df

/-- The tag sequence of one row's depth-first traversal (what the header
loop appends). -/
def headersOf (r : Node) : List String := (Node.iter r).map Node.tag

/-- The text sequence of one row's depth-first traversal (what the value
loop appends). -/
def valsOf (r : Node) : List (Option String) := (Node.iter r).map Node.text

/-- The dict built for row `r` once the headers were captured from the
first row `r0`. -/
def rowDict (r0 r : Node) : Dict := dictOfZip (headersOf r0) (valsOf r)

/-- Insert a key at the end unless already present — how a Python dict
grows its key list. -/
def insKey (acc : List String) (k : String) : List String :=
  if k ∈ acc then acc else acc ++ [k]

/-- Deduplicate a list keeping the first occurrence of each element —
the key order of a Python dict fed a repeated key. -/
def firstDedup (ks : List String) : List String :=
  ks.foldl insKey []

/-- The column list the flattened table ends up with: the keys of the
first row's dict. -/
def tableColumns (r0 : Node) : List String := (rowDict r0 r0).map Prod.fst

/-- The cell list emitted for row `r` (first row captured was `r0`). -/
def emittedRow (r0 r : Node) : List (Option String) := rowValues (tableColumns r0) (rowDict r0 r)

/-- The section-level pattern around a flattening loop (sonucParse.py
lines 28-51): `root.find(secTag)` returning `None` makes the immediate
`.findall` attribute access raise (AttributeError); an empty row list
leaves the dataframe unbound so its later use raises (NameError);
otherwise the table is produced. -/
def processSection (root : Node) (secTag rowTag : String) : Except String Table :=
  match Node.find root secTag with
  | none => Except.error "AttributeError"
  | some sec =>
    match flatten sec rowTag with
    | none => Except.error "NameError"
    | some tb => Except.ok tb

/-- Split the tag at the first closing brace and keep part 1: everything
after that brace. When the tag has no closing brace the split has a
single part and taking part 1 raises IndexError, modelled as `none`. -/
def stripTag (s : String) : Option String :=
  if '\x7d' ∈ s.toList then
    some (String.mk ((s.toList.dropWhile (fun c => c ≠ '\x7d')).drop 1))
  else none

/-- The suffix of a tag after its first closing brace (its local name when
the tag is ElementTree-namespaced `\x7buri\x7dlocal`). -/
def afterClose (s : String) : String :=
  String.mk ((s.toList.dropWhile (fun c => c ≠ '\x7d')).drop 1)

-- The namespace-stripping loop applied to every element of the tree:
-- `el.tag = el.tag.split(closing brace, 1)[1]` over all elements; any
-- element whose tag lacks a closing brace aborts with IndexError.
mutual
def stripTree : Node → Option Node
  | .mk t x cs =>
    match stripTag t, stripList cs with
    | some t', some cs' => some (.mk t' x cs')
    | _, _ => none

def stripList : List Node → Option (List Node)
  | [] => some []
  | c :: cs =>
    match stripTree c, stripList cs with
    | some c', some cs' => some (c' :: cs')
    | _, _ => none
end

-- A pristine structural copy of a tree, for stating that flattening
-- leaves the input tree unchanged.
mutual
def copyTree : Node → Node
  | .mk t x cs => .mk t x (copyList cs)

def copyList : List Node → List Node
  | [] => []
  | c :: cs => copyTree c :: copyList cs
end

/-- The section with its children in reverse document order, for the
row-order-independence property. -/
def revChildren (n : Node) : Node :=
  .mk n.tag n.text n.children.reverse

/-- The value the table holds in data row `i` under column `q` (first
matching column; the columns of a flattened table are unique). -/
def cellValue (tb : Table) (i : Nat) (q : String) : Option String :=
  match tb.rows.get? i with
  | none => none
  | some row => (((List.zip tb.columns row).find? (fun p => p.1 = q)).map Prod.snd).join

/-- The value the last occurrence of key `q` gets in `dict(zip(...))`:
walk the pair list, later matches win. -/
def lastVal : List (String × Option String) → String → Option (Option String)
  | [], _ => none
  | (k, v) :: l, q =>
    match lastVal l q with
    | some w => some w
    | none => if k = q then some v else none


theorem assocUpd_keys (d : Dict) (k : String) (v : Option String) :
    (assocUpd d k v).map Prod.fst = insKey (d.map Prod.fst) k := by
  induction d with
  | nil => rfl
  | cons p d ih =>
    obtain ⟨k0, v0⟩ := p
    by_cases hk : k0 = k
    · subst hk
      simp [assocUpd, insKey]
    · have hne : ¬ (k = k0) := fun he => hk he.symm
      simp only [assocUpd, if_neg hk, List.map_cons, ih, insKey]
      by_cases hm : k ∈ d.map Prod.fst
      · simp [hm, hne]
      · simp [hm, hne]

theorem assocUpd_keys_nodup (d : Dict) (k : String) (v : Option String)
    (h : (d.map Prod.fst).Nodup) : ((assocUpd d k v).map Prod.fst).Nodup := by
  rw [assocUpd_keys, insKey]
  by_cases hm : k ∈ d.map Prod.fst
  · rwa [if_pos hm]
  · rw [if_neg hm]
    simp [List.nodup_append, h, hm]

theorem foldl_assocUpd_nodup (l : List (String × Option String)) :
    ∀ d : Dict, (d.map Prod.fst).Nodup →
      ((l.foldl (fun d kv => assocUpd d kv.1 kv.2) d).map Prod.fst).Nodup := by
  induction l with
  | nil => intro d h; exact h
  | cons kv l ih => intro d h; exact ih _ (assocUpd_keys_nodup d kv.1 kv.2 h)

theorem dictOfZip_keys_nodup (ks : List String) (vs : List (Option String)) :
    ((dictOfZip ks vs).map Prod.fst).Nodup :=
  foldl_assocUpd_nodup _ [] (by simp)

theorem alookup_assocUpd (d : Dict) (k : String) (v : Option String) (q : String) :
    alookup (assocUpd d k v) q = if k = q then some v else alookup d q := by
  induction d with
  | nil =>
    by_cases hq : k = q
    · simp [assocUpd, alookup, hq]
    · simp [assocUpd, alookup, hq]
  | cons p d ih =>
    obtain ⟨k0, v0⟩ := p
    by_cases hk : k0 = k
    · subst hk
      by_cases hq : k0 = q
      · simp [assocUpd, alookup, hq]
      · simp [assocUpd, alookup, hq]
    · by_cases hq : k0 = q
      · have hne : ¬ (k = q) := fun he => hk (hq.trans he.symm)
        have hne' : ¬ (q = k) := fun he => hne he.symm
        simp [assocUpd, alookup, hk, hq, hne, hne']
      · simp [assocUpd, alookup, hk, hq, ih]

theorem alookup_foldl (l : List (String × Option String)) :
    ∀ (d : Dict) (q : String),
      alookup (l.foldl (fun d kv => assocUpd d kv.1 kv.2) d) q =
        match lastVal l q with
        | some w => some w
        | none => alookup d q := by
  induction l with
  | nil => intro d q; simp [lastVal]
  | cons kv l ih =>
    intro d q
    obtain ⟨k, v⟩ := kv
    rw [List.foldl_cons, ih]
    cases hl : lastVal l q with
    | some w => simp [lastVal, hl]
    | none =>
      rw [alookup_assocUpd]
      by_cases hq : k = q
      · simp [lastVal, hl, hq]
      · simp [lastVal, hl, hq]

/-- On the dict `dict(zip(ks, vs))`, lookup returns the value the LAST
pair carrying the key assigned. -/
theorem alookup_dictOfZip (ks : List String) (vs : List (Option String)) (q : String) :
    alookup (dictOfZip ks vs) q = lastVal (List.zip ks vs) q := by
  rw [dictOfZip, alookup_foldl]
  cases h : lastVal (List.zip ks vs) q with
  | some w => simp
  | none => simp [alookup]

theorem foldl_assocUpd_keys (l : List (String × Option String)) :
    ∀ d : Dict, (l.foldl (fun d kv => assocUpd d kv.1 kv.2) d).map Prod.fst =
      (l.map Prod.fst).foldl insKey (d.map Prod.fst) := by
  induction l with
  | nil => intro d; rfl
  | cons kv l ih =>
    intro d
    rw [List.foldl_cons, ih, assocUpd_keys, List.map_cons, List.foldl_cons]

/-- The columns of the dict built from zipped headers and values: the
headers deduplicated keeping first occurrences. -/
theorem dictOfZip_keys (ks : List String) (vs : List (Option String)) :
    (dictOfZip ks vs).map Prod.fst = firstDedup ((List.zip ks vs).map Prod.fst) := by
  rw [dictOfZip, foldl_assocUpd_keys, firstDedup]
  rfl

theorem dictOfZip_keys_of_length_le (ks : List String) (vs : List (Option String))
    (h : ks.length ≤ vs.length) :
    (dictOfZip ks vs).map Prod.fst = firstDedup ks := by
  rw [dictOfZip_keys, List.map_fst_zip ks vs h]

theorem rowValues_self (d : Dict) (h : (d.map Prod.fst).Nodup) :
    rowValues (d.map Prod.fst) d = d.map Prod.snd := by
  induction d with
  | nil => rfl
  | cons p d ih =>
    obtain ⟨k, v⟩ := p
    have hk : k ∉ d.map Prod.fst := (List.nodup_cons.mp (by simpa using h)).1
    have hnd : (d.map Prod.fst).Nodup := (List.nodup_cons.mp (by simpa using h)).2
    have htail : (d.map Prod.fst).map (fun c => (alookup ((k, v) :: d) c).join)
        = (d.map Prod.fst).map (fun c => (alookup d c).join) := by
      refine List.map_congr_left ?_
      intro c hc
      have hne : ¬ (k = c) := fun he => hk (he ▸ hc)
      simp [alookup, hne]
    have hh : alookup ((k, v) :: d) k = some v := by simp [alookup]
    calc rowValues (((k, v) :: d).map Prod.fst) ((k, v) :: d)
        = (alookup ((k, v) :: d) k).join
            :: (d.map Prod.fst).map (fun c => (alookup ((k, v) :: d) c).join) := by
          simp [rowValues]
      _ = v :: rowValues (d.map Prod.fst) d := by rw [hh, htail]; simp [rowValues]
      _ = ((k, v) :: d).map Prod.snd := by rw [ih hnd]; rfl

theorem headersOf_length_eq (r : Node) : (headersOf r).length = (valsOf r).length := by
  simp [headersOf, valsOf]

/-- The columns of a flattened table: the first row's depth-first tag
sequence — row container first — deduplicated keeping first occurrences. -/
theorem tableColumns_eq (r0 : Node) : tableColumns r0 = firstDedup (headersOf r0) := by
  rw [tableColumns, rowDict, dictOfZip_keys_of_length_le]
  exact le_of_eq (headersOf_length_eq r0)

theorem foldl_flattenStep_run (hdrs : List String) (rs : List Node) :
    ∀ t : Table,
      (rs.foldl flattenStep { headers := hdrs, hdrCount := 1, df := some t }).df =
        some { columns := t.columns,
               rows := t.rows ++ rs.map (fun r => rowValues t.columns (dictOfZip hdrs (valsOf r))) } := by
  induction rs with
  | nil => intro t; simp
  | cons r rs ih =>
    intro t
    rw [List.foldl_cons]
    have hstep : flattenStep { headers := hdrs, hdrCount := 1, df := some t } r =
        { headers := hdrs, hdrCount := 1,
          df := some (dfAppend t (dictOfZip hdrs (valsOf r))) } := by
      simp [flattenStep, valsOf]
    rw [hstep, ih]
    simp [dfAppend]

/-- What the whole flattening loop produces on a non-empty row list:
columns from the first row's dict, one emitted row per input row, in
input order. -/
theorem flatten_eq (sec : Node) (rowTag : String) (r0 : Node) (rs : List Node)
    (h : findall sec rowTag = r0 :: rs) :
    flatten sec rowTag =
      some { columns := tableColumns r0, rows := (r0 :: rs).map (emittedRow r0) } := by
  unfold flatten
  rw [h, List.foldl_cons]
  have hstep : flattenStep { headers := [], hdrCount := 0, df := none } r0 =
      { headers := headersOf r0, hdrCount := 1, df := some (dfOfDict (rowDict r0 r0)) } := by
    simp [flattenStep, headersOf, valsOf, rowDict, dictOfZip]
  rw [hstep, foldl_flattenStep_run]
  have hnd : ((rowDict r0 r0).map Prod.fst).Nodup := dictOfZip_keys_nodup _ _
  have hfirst : (rowDict r0 r0).map Prod.snd = emittedRow r0 r0 := by
    rw [emittedRow, tableColumns, rowValues_self _ hnd]
  simp only [dfOfDict, List.map_cons]
  rw [hfirst]
  congr 1

theorem flatten_nil (sec : Node) (rowTag : String) (h : findall sec rowTag = []) :
    flatten sec rowTag = none := by
  unfold flatten
  rw [h]
  rfl

theorem foldl_insKey_acc (l : List String) :
    ∀ acc : List String, ∃ t, l.foldl insKey acc = acc ++ t := by
  induction l with
  | nil => intro acc; exact ⟨[], by simp⟩
  | cons k l ih =>
    intro acc
    rw [List.foldl_cons]
    by_cases hm : k ∈ acc
    · have he : insKey acc k = acc := by rw [insKey, if_pos hm]
      rw [he]
      exact ih acc
    · have he : insKey acc k = acc ++ [k] := by rw [insKey, if_neg hm]
      rw [he]
      rcases ih (acc ++ [k]) with ⟨t, ht⟩
      exact ⟨[k] ++ t, by rw [ht, List.append_assoc]⟩

theorem mem_insKey (acc : List String) (k a : String) :
    a ∈ insKey acc k ↔ a ∈ acc ∨ a = k := by
  rw [insKey]
  by_cases hm : k ∈ acc
  · rw [if_pos hm]
    constructor
    · exact Or.inl
    · rintro (h | h)
      · exact h
      · exact h ▸ hm
  · rw [if_neg hm]
    simp [List.mem_append]

theorem mem_foldl_insKey (l : List String) :
    ∀ (acc : List String) (a : String), a ∈ l.foldl insKey acc ↔ a ∈ acc ∨ a ∈ l := by
  induction l with
  | nil => intro acc a; simp
  | cons k l ih =>
    intro acc a
    rw [List.foldl_cons, ih, mem_insKey]
    constructor
    · rintro ((h | h) | h)
      · exact Or.inl h
      · exact Or.inr (by simp [h])
      · exact Or.inr (by simp [h])
    · rintro (h | h)
      · exact Or.inl (Or.inl h)
      · rcases List.mem_cons.mp h with h | h
        · exact Or.inl (Or.inr h)
        · exact Or.inr h

theorem mem_firstDedup (l : List String) (a : String) : a ∈ firstDedup l ↔ a ∈ l := by
  rw [firstDedup, mem_foldl_insKey]
  simp

theorem foldl_insKey_of_nodup (l : List String) :
    ∀ acc : List String, l.Nodup → (∀ a ∈ l, a ∉ acc) → l.foldl insKey acc = acc ++ l := by
  induction l with
  | nil => intro acc _ _; simp
  | cons k l ih =>
    intro acc hnd hdisj
    have hk : k ∉ acc := hdisj k (by simp)
    rw [List.foldl_cons, insKey, if_neg hk]
    have hnd' : l.Nodup := (List.nodup_cons.mp hnd).2
    have hkl : k ∉ l := (List.nodup_cons.mp hnd).1
    have hdisj' : ∀ a ∈ l, a ∉ acc ++ [k] := by
      intro a ha
      simp only [List.mem_append, List.mem_singleton]
      rintro (h | h)
      · exact hdisj a (by simp [ha]) h
      · exact hkl (h ▸ ha)
    rw [ih (acc ++ [k]) hnd' hdisj', List.append_assoc]
    rfl

theorem firstDedup_of_nodup (l : List String) (h : l.Nodup) : firstDedup l = l := by
  rw [firstDedup, foldl_insKey_of_nodup l [] h (by simp)]
  rfl

theorem firstDedup_cons (k : String) (l : List String) :
    ∃ t, firstDedup (k :: l) = k :: t := by
  rw [firstDedup, List.foldl_cons]
  have h1 : insKey [] k = [k] := by simp [insKey]
  rw [h1]
  rcases foldl_insKey_acc l [k] with ⟨t, ht⟩
  exact ⟨t, by rw [ht]; rfl⟩

theorem assocUpd_not_mem (d : Dict) (k : String) (v : Option String)
    (h : k ∉ d.map Prod.fst) : assocUpd d k v = d ++ [(k, v)] := by
  induction d with
  | nil => rfl
  | cons p d ih =>
    obtain ⟨k0, v0⟩ := p
    have hne : ¬ (k0 = k) := by
      intro he; exact h (by simp [he])
    have h' : k ∉ d.map Prod.fst := fun hm => h (by simp [hm])
    simp [assocUpd, hne, ih h']

theorem foldl_assocUpd_of_disjoint (l : List (String × Option String)) :
    ∀ d : Dict, (l.map Prod.fst).Nodup → (∀ k ∈ l.map Prod.fst, k ∉ d.map Prod.fst) →
      l.foldl (fun d kv => assocUpd d kv.1 kv.2) d = d ++ l := by
  induction l with
  | nil => intro d _ _; simp
  | cons kv l ih =>
    intro d hnd hdisj
    obtain ⟨k, v⟩ := kv
    have hk : k ∉ d.map Prod.fst := hdisj k (by simp)
    rw [List.foldl_cons]
    change l.foldl (fun d kv => assocUpd d kv.1 kv.2) (assocUpd d k v) = _
    rw [assocUpd_not_mem d k v hk]
    have hnd' : (l.map Prod.fst).Nodup := by
      rw [List.map_cons] at hnd
      exact (List.nodup_cons.mp hnd).2
    have hkl : k ∉ l.map Prod.fst := by
      rw [List.map_cons] at hnd
      exact (List.nodup_cons.mp hnd).1
    have hdisj' : ∀ a ∈ l.map Prod.fst, a ∉ (d ++ [(k, v)]).map Prod.fst := by
      intro a ha
      rw [List.map_append]
      simp only [List.mem_append]
      rintro (h | h)
      · exact hdisj a (by simp [ha]) h
      · have : a = k := by simpa using h
        exact hkl (this ▸ ha)
    rw [ih (d ++ [(k, v)]) hnd' hdisj', List.append_assoc]
    rfl

/-- When the zipped keys are duplicate-free, the Python dict keeps every
pair as assigned, in order. -/
theorem dictOfZip_eq_zip (ks : List String) (vs : List (Option String))
    (h : ((List.zip ks vs).map Prod.fst).Nodup) : dictOfZip ks vs = List.zip ks vs := by
  rw [dictOfZip, foldl_assocUpd_of_disjoint _ [] h (by simp)]
  rfl

theorem find_zip_map (cols : List String) (f : String → Option String) (q : String)
    (h : q ∈ cols) :
    (List.zip cols (cols.map f)).find? (fun p => p.1 = q) = some (q, f q) := by
  induction cols with
  | nil => simp at h
  | cons c cols ih =>
    rw [List.map_cons, List.zip_cons_cons]
    by_cases hc : c = q
    · subst hc
      simp [List.find?]
    · have h' : q ∈ cols := by
        rcases List.mem_cons.mp h with h1 | h2
        · exact absurd h1.symm hc
        · exact h2
      simp [List.find?, hc, ih h']

theorem mem_findall_tag (sec : Node) (rowTag : String) (r : Node)
    (h : r ∈ findall sec rowTag) : r.tag = rowTag := by
  have hm := List.mem_filter.mp h
  simpa using hm.2

theorem findall_revChildren (sec : Node) (rowTag : String) :
    findall (revChildren sec) rowTag = (findall sec rowTag).reverse := by
  cases sec with
  | mk t x cs =>
    simp [findall, revChildren, Node.children, Node.tag, Node.text, List.filter_reverse]

theorem headersOf_mk (t : String) (x : Option String) (cs : List Node) :
    headersOf (.mk t x cs) = t :: (iterList cs).map Node.tag := by
  simp [headersOf, Node.iter, Node.tag]

theorem headersOf_head (r : Node) :
    headersOf r = r.tag :: (iterList r.children).map Node.tag := by
  cases r with
  | mk t x cs => rw [headersOf_mk]; rfl

mutual
theorem copyTree_eq : ∀ n : Node, copyTree n = n
  | .mk t x cs => by rw [copyTree, copyList_eq]

theorem copyList_eq : ∀ l : List Node, copyList l = l
  | [] => by rw [copyList]
  | c :: cs => by rw [copyList, copyTree_eq, copyList_eq]
end

mutual
theorem stripTree_tags : ∀ n : Node, (∀ s ∈ headersOf n, '\x7d' ∈ s.toList) →
    ∃ n', stripTree n = some n' ∧ headersOf n' = (headersOf n).map afterClose
  | .mk t x cs => fun h => by
    rw [headersOf_mk] at h
    have ht : '\x7d' ∈ t.toList := h t (by simp)
    have hcs : ∀ s ∈ (iterList cs).map Node.tag, '\x7d' ∈ s.toList := by
      intro s hs
      exact h s (by simp [hs])
    rcases stripList_tags cs hcs with ⟨cs', hcs1, hcs2⟩
    refine ⟨.mk (afterClose t) x cs', ?_, ?_⟩
    · have hst : stripTag t = some (afterClose t) := by
        rw [stripTag, if_pos ht]; rfl
      rw [stripTree, hst, hcs1]
    · rw [headersOf_mk, headersOf_mk, List.map_cons, hcs2]

theorem stripList_tags : ∀ l : List Node, (∀ s ∈ (iterList l).map Node.tag, '\x7d' ∈ s.toList) →
    ∃ l', stripList l = some l' ∧
      (iterList l').map Node.tag = ((iterList l).map Node.tag).map afterClose
  | [] => fun _ => ⟨[], rfl, rfl⟩
  | c :: cs => fun h => by
    rw [iterList] at h
    have hc : ∀ s ∈ headersOf c, '\x7d' ∈ s.toList := by
      intro s hs
      rw [headersOf] at hs
      exact h s (by rw [List.map_append]; exact List.mem_append_left _ hs)
    have hcs : ∀ s ∈ (iterList cs).map Node.tag, '\x7d' ∈ s.toList := by
      intro s hs
      exact h s (by rw [List.map_append]; exact List.mem_append_right _ hs)
    rcases stripTree_tags c hc with ⟨c', h1, h2⟩
    rcases stripList_tags cs hcs with ⟨h3', h3, h4⟩
    refine ⟨c' :: h3', ?_, ?_⟩
    · rw [stripList, h1, h3]
    · rw [iterList, iterList, List.map_append, List.map_append, List.map_append]
      rw [show (Node.iter c').map Node.tag = headersOf c' from rfl, h2, h4, headersOf]
end

/-- When the first row's tag traversal is duplicate-free and row `r` has
the same tag traversal, the emitted cells are exactly `r`'s raw texts in
traversal order. -/
theorem emittedRow_eq_valsOf (r0 r : Node) (hnd : (headersOf r0).Nodup)
    (hs : headersOf r = headersOf r0) : emittedRow r0 r = valsOf r := by
  have hlenr : (headersOf r0).length = (valsOf r).length := by
    rw [← hs]; exact headersOf_length_eq r
  have hz : (List.zip (headersOf r0) (valsOf r)).map Prod.fst = headersOf r0 :=
    List.map_fst_zip _ _ (le_of_eq hlenr)
  have hznd : ((List.zip (headersOf r0) (valsOf r)).map Prod.fst).Nodup := by
    rw [hz]; exact hnd
  have hdict : rowDict r0 r = List.zip (headersOf r0) (valsOf r) := by
    rw [rowDict]; exact dictOfZip_eq_zip _ _ hznd
  have hcols : tableColumns r0 = headersOf r0 := by
    rw [tableColumns_eq, firstDedup_of_nodup _ hnd]
  rw [emittedRow, hcols, hdict]
  nth_rewrite 1 [← hz]
  rw [rowValues_self _ hznd]
  exact List.map_snd_zip _ _ (le_of_eq hlenr.symm)

/-- The cell the first data row holds under column `q`, when that row was
read off the columns from dict `d`. -/
theorem cellValue_zero (cols : List String) (d : Dict) (rest : List (List (Option String)))
    (q : String) (h : q ∈ cols) :
    cellValue { columns := cols, rows := rowValues cols d :: rest } 0 q = (alookup d q).join := by
  show (((List.zip cols (rowValues cols d)).find? fun p => p.1 = q).map Prod.snd).join
      = (alookup d q).join
  rw [rowValues, find_zip_map cols _ q h]
  rfl

/-- Claim C1, counterexample: on the spec's scenario A input (one row
with children id=1, name=A) the flattening loop's `iter()` traversal
includes the row container element itself, so the columns are
item, id, name with a null cell for the container — not the claimed
id, name with row values 1, A. -/
theorem flatten_scenarioA_counterexample :
    flatten (Node.mk "section" none
        [Node.mk "item" none [leaf "id" "1", leaf "name" "A"]]) "item"
      = some { columns := ["item", "id", "name"], rows := [[none, some "1", some "A"]] }
    ∧ (flatten (Node.mk "section" none
        [Node.mk "item" none [leaf "id" "1", leaf "name" "A"]]) "item").map Table.columns
      ≠ some ["id", "name"] := by
  constructor
  · rfl
  · decide

/-- Claim C1 (amended): the column list is the first row's depth-first
traversal of tag names INCLUDING the row container element itself, which
comes first (deduplicated keeping first occurrences, as the dict does);
for scenario A this gives columns item, id, name and the single row
null, 1, A. -/
theorem flatten_columns_include_row_container (sec : Node) (rowTag : String)
    (r0 : Node) (rs : List Node) (h : findall sec rowTag = r0 :: rs) :
    ∃ rest, (flatten sec rowTag).map Table.columns = some (rowTag :: rest) ∧
      rowTag :: rest = firstDedup (headersOf r0) := by
  have hmem : r0 ∈ findall sec rowTag := by
    rw [h]; exact List.mem_cons_self r0 rs
  have htag : r0.tag = rowTag := mem_findall_tag sec rowTag r0 hmem
  rcases firstDedup_cons r0.tag ((iterList r0.children).map Node.tag) with ⟨t, ht⟩
  have hfd : firstDedup (headersOf r0) = rowTag :: t := by
    rw [headersOf_head, ht, htag]
  refine ⟨t, ?_, hfd.symm⟩
  rw [flatten_eq sec rowTag r0 rs h]
  simp [tableColumns_eq, hfd]

/-- Witness for C1 at scenario A: the hypothesis holds and the columns
are the row-container tag followed by the rest of the traversal. -/
theorem flatten_columns_include_row_container_witness :
    findall (Node.mk "section" none
        [Node.mk "item" none [leaf "id" "1", leaf "name" "A"]]) "item"
      = [Node.mk "item" none [leaf "id" "1", leaf "name" "A"]]
    ∧ ∃ rest, (flatten (Node.mk "section" none
        [Node.mk "item" none [leaf "id" "1", leaf "name" "A"]]) "item").map Table.columns
        = some ("item" :: rest)
      ∧ "item" :: rest = firstDedup (headersOf (Node.mk "item" none [leaf "id" "1", leaf "name" "A"])) :=
  ⟨rfl, flatten_columns_include_row_container _ _ _ [] rfl⟩

/-- Claim C2, counterexample: a row whose traversal visits three nodes
(container item plus two children both tagged a) yields a table with TWO
columns, not three — the dict collapses the duplicate tag — so the column
count is not the number of distinct nodes visited. -/
theorem flatten_duplicate_tags_column_count_counterexample :
    ((flatten (Node.mk "section" none
        [Node.mk "item" none [leaf "a" "1", leaf "a" "2"]]) "item").map
          fun tb => tb.columns.length) = some 2
    ∧ (Node.iter (Node.mk "item" none [leaf "a" "1", leaf "a" "2"])).length = 3
    ∧ ((flatten (Node.mk "section" none
        [Node.mk "item" none [leaf "a" "1", leaf "a" "2"]]) "item").map
          fun tb => tb.columns.length)
      ≠ some (Node.iter (Node.mk "item" none [leaf "a" "1", leaf "a" "2"])).length := by
  refine ⟨rfl, rfl, ?_⟩
  decide

/-- Claim C2 (amended): for a section with at least one row, all rows
sharing the first row's tag traversal, the table has exactly one data row
per row element and its column count is the number of DISTINCT TAG NAMES
in the first row's depth-first traversal (container included); duplicate
tags collapse into one column. A section with zero rows produces no table
at all (see C5). -/
theorem flatten_row_count_and_column_count (sec : Node) (rowTag : String)
    (r0 : Node) (rs : List Node) (h : findall sec rowTag = r0 :: rs)
    (_hsame : ∀ r ∈ rs, headersOf r = headersOf r0) :
    ∃ tb, flatten sec rowTag = some tb ∧
      tb.rows.length = (findall sec rowTag).length ∧
      tb.columns.length = (firstDedup (headersOf r0)).length := by
  refine ⟨_, flatten_eq sec rowTag r0 rs h, ?_, ?_⟩
  · rw [h]
    simp
  · simp [tableColumns_eq]

/-- Witness for C2 on two structurally identical rows: two data rows and
three columns (container, id, name). -/
theorem flatten_row_count_and_column_count_witness :
    findall (Node.mk "section" none
        [Node.mk "item" none [leaf "id" "1", leaf "name" "A"],
         Node.mk "item" none [leaf "id" "2", leaf "name" "B"]]) "item"
      = [Node.mk "item" none [leaf "id" "1", leaf "name" "A"],
         Node.mk "item" none [leaf "id" "2", leaf "name" "B"]]
    ∧ (∀ r ∈ [Node.mk "item" none [leaf "id" "2", leaf "name" "B"]],
        headersOf r = headersOf (Node.mk "item" none [leaf "id" "1", leaf "name" "A"]))
    ∧ ∃ tb, flatten (Node.mk "section" none
        [Node.mk "item" none [leaf "id" "1", leaf "name" "A"],
         Node.mk "item" none [leaf "id" "2", leaf "name" "B"]]) "item" = some tb ∧
      tb.rows.length = (findall (Node.mk "section" none
        [Node.mk "item" none [leaf "id" "1", leaf "name" "A"],
         Node.mk "item" none [leaf "id" "2", leaf "name" "B"]]) "item").length ∧
      tb.columns.length
        = (firstDedup (headersOf (Node.mk "item" none [leaf "id" "1", leaf "name" "A"]))).length :=
  ⟨rfl, by decide, flatten_row_count_and_column_count _ _ _ _ rfl (by decide)⟩

/-- Claim C3, counterexample: on the nested scenario C row the traversal
is depth-first pre-order but STARTS at the row container, so the columns
are item, id, sub, x and the values null, 1, null, 9 — not the claimed
id, sub, x with 1, null, 9. -/
theorem flatten_scenarioC_counterexample :
    flatten (Node.mk "section" none
        [Node.mk "item" none [leaf "id" "1", Node.mk "sub" none [leaf "x" "9"]]]) "item"
      = some { columns := ["item", "id", "sub", "x"],
               rows := [[none, some "1", none, some "9"]] }
    ∧ flatten (Node.mk "section" none
        [Node.mk "item" none [leaf "id" "1", Node.mk "sub" none [leaf "x" "9"]]]) "item"
      ≠ some { columns := ["id", "sub", "x"], rows := [[some "1", none, some "9"]] } := by
  constructor
  · rfl
  · decide

/-- Claim C3 (amended): for duplicate-free, structurally identical rows
the columns are the full depth-first pre-order tag traversal of the first
row (row container first) and each cell is the corresponding node's raw
text or null — no coercion, no trimming; a container node with no direct
text contributes a null cell. Scenario C yields columns item, id, sub, x
and values null, 1, null, 9. -/
theorem flatten_values_are_raw_texts (sec : Node) (rowTag : String)
    (r0 : Node) (rs : List Node) (h : findall sec rowTag = r0 :: rs)
    (hnd : (headersOf r0).Nodup)
    (hsame : ∀ r ∈ rs, headersOf r = headersOf r0) :
    flatten sec rowTag = some { columns := headersOf r0, rows := (r0 :: rs).map valsOf } := by
  rw [flatten_eq sec rowTag r0 rs h]
  have hcols : tableColumns r0 = headersOf r0 := by
    rw [tableColumns_eq, firstDedup_of_nodup _ hnd]
  have hrow : ∀ r ∈ r0 :: rs, emittedRow r0 r = valsOf r := by
    intro r hr
    rcases List.mem_cons.mp hr with h1 | h2
    · subst h1
      exact emittedRow_eq_valsOf r r hnd rfl
    · exact emittedRow_eq_valsOf r0 r hnd (hsame r h2)
  rw [List.map_congr_left hrow, hcols]

/-- Witness for C3 at scenario C: hypotheses hold and the produced table
is the full-traversal one. -/
theorem flatten_values_are_raw_texts_witness :
    findall (Node.mk "section" none
        [Node.mk "item" none [leaf "id" "1", Node.mk "sub" none [leaf "x" "9"]]]) "item"
      = [Node.mk "item" none [leaf "id" "1", Node.mk "sub" none [leaf "x" "9"]]]
    ∧ (headersOf (Node.mk "item" none [leaf "id" "1", Node.mk "sub" none [leaf "x" "9"]])).Nodup
    ∧ flatten (Node.mk "section" none
        [Node.mk "item" none [leaf "id" "1", Node.mk "sub" none [leaf "x" "9"]]]) "item"
      = some { columns := headersOf (Node.mk "item" none [leaf "id" "1", Node.mk "sub" none [leaf "x" "9"]]),
               rows := [Node.mk "item" none [leaf "id" "1", Node.mk "sub" none [leaf "x" "9"]]].map valsOf } :=
  ⟨rfl, by decide,
    flatten_values_are_raw_texts _ _ _ [] rfl (by decide) (by decide)⟩

/-- Claim C4, counterexample: on scenario B the rows do come out in
document order, but each carries a leading null cell for the row
container, so the emitted rows are not the claimed two-cell rows. -/
theorem flatten_scenarioB_rows_counterexample :
    (flatten (Node.mk "section" none
        [Node.mk "item" none [leaf "id" "1", leaf "name" "A"],
         Node.mk "item" none [leaf "id" "2", leaf "name" "B"]]) "item").map Table.rows
      = some [[none, some "1", some "A"], [none, some "2", some "B"]]
    ∧ (flatten (Node.mk "section" none
        [Node.mk "item" none [leaf "id" "1", leaf "name" "A"],
         Node.mk "item" none [leaf "id" "2", leaf "name" "B"]]) "item").map Table.rows
      ≠ some [[some "1", some "A"], [some "2", some "B"]] := by
  constructor
  · rfl
  · decide

/-- Claim C4 (amended): the data rows of the output table are exactly the
emitted rows of the section's row elements, one per element, in document
order (the i-th table row comes from the i-th row element); each row also
carries the container's null cell, so scenario B yields null,1,A then
null,2,B in that order. -/
theorem flatten_preserves_row_order (sec : Node) (rowTag : String)
    (r0 : Node) (rs : List Node) (h : findall sec rowTag = r0 :: rs) :
    (flatten sec rowTag).map Table.rows = some ((r0 :: rs).map (emittedRow r0)) := by
  rw [flatten_eq sec rowTag r0 rs h]
  rfl

/-- Witness for C4 at scenario B: the hypothesis holds and the rows map
the two row elements in order. -/
theorem flatten_preserves_row_order_witness :
    findall (Node.mk "section" none
        [Node.mk "item" none [leaf "id" "1", leaf "name" "A"],
         Node.mk "item" none [leaf "id" "2", leaf "name" "B"]]) "item"
      = [Node.mk "item" none [leaf "id" "1", leaf "name" "A"],
         Node.mk "item" none [leaf "id" "2", leaf "name" "B"]]
    ∧ (flatten (Node.mk "section" none
        [Node.mk "item" none [leaf "id" "1", leaf "name" "A"],
         Node.mk "item" none [leaf "id" "2", leaf "name" "B"]]) "item").map Table.rows
      = some ([Node.mk "item" none [leaf "id" "1", leaf "name" "A"],
               Node.mk "item" none [leaf "id" "2", leaf "name" "B"]].map
                 (emittedRow (Node.mk "item" none [leaf "id" "1", leaf "name" "A"]))) :=
  ⟨rfl, flatten_preserves_row_order _ _ _ _ rfl⟩

/-- Claim C5, counterexample: a section with zero matching rows does NOT
yield a zero-row table — the loop never binds the dataframe, so no table
exists (`none`) and the section-level code fails with NameError where the
table is next used. -/
theorem flatten_empty_section_counterexample :
    flatten (Node.mk "Dokumanlar" none []) "Dokuman" = none
    ∧ processSection (Node.mk "root" none [Node.mk "Dokumanlar" none []])
        "Dokumanlar" "Dokuman" = Except.error "NameError" := by
  constructor
  · rfl
  · rfl

/-- Claim C5 (amended): for every section with zero matching row
elements the flattening loop never constructs a table (`flatten` is
`none`), and the section-level processing fails with a NameError at the
table's later use, instead of returning a table with zero data rows. -/
theorem flatten_empty_section_yields_no_table (root : Node) (secTag rowTag : String)
    (sec : Node) (hfind : Node.find root secTag = some sec)
    (hrows : findall sec rowTag = []) :
    flatten sec rowTag = none ∧
      processSection root secTag rowTag = Except.error "NameError" := by
  have hnone : flatten sec rowTag = none := flatten_nil sec rowTag hrows
  refine ⟨hnone, ?_⟩
  simp [processSection, hfind, hnone]

/-- Witness for C5: a document whose Dokumanlar section exists but holds
no Dokuman rows. -/
theorem flatten_empty_section_yields_no_table_witness :
    Node.find (Node.mk "root" none [Node.mk "Dokumanlar" none [leaf "Note" "n"]])
        "Dokumanlar" = some (Node.mk "Dokumanlar" none [leaf "Note" "n"])
    ∧ findall (Node.mk "Dokumanlar" none [leaf "Note" "n"]) "Dokuman" = []
    ∧ flatten (Node.mk "Dokumanlar" none [leaf "Note" "n"]) "Dokuman" = none
    ∧ processSection (Node.mk "root" none [Node.mk "Dokumanlar" none [leaf "Note" "n"]])
        "Dokumanlar" "Dokuman" = Except.error "NameError" := by
  refine ⟨rfl, rfl, ?_⟩
  exact flatten_empty_section_yields_no_table _ _ _ _ rfl rfl

/-- Claim C6 (confirmed): for rows sharing one tag structure, the column
list is captured from whichever row comes first and is therefore
unchanged when the section's children are reversed. -/
theorem flatten_columns_independent_of_row_order (sec : Node) (rowTag : String)
    (hsame : ∀ r1 ∈ findall sec rowTag, ∀ r2 ∈ findall sec rowTag,
      headersOf r1 = headersOf r2) :
    (flatten sec rowTag).map Table.columns
      = (flatten (revChildren sec) rowTag).map Table.columns := by
  cases h : findall sec rowTag with
  | nil =>
    have h2 : findall (revChildren sec) rowTag = [] := by
      rw [findall_revChildren, h]
      rfl
    rw [flatten_nil sec rowTag h, flatten_nil _ rowTag h2]
  | cons r0 rs =>
    have hne : findall (revChildren sec) rowTag ≠ [] := by
      rw [findall_revChildren, h]
      simp
    rcases List.exists_cons_of_ne_nil hne with ⟨r1, rs', h2⟩
    rw [flatten_eq sec rowTag r0 rs h, flatten_eq _ rowTag r1 rs' h2]
    have hm0 : r0 ∈ findall sec rowTag := by
      rw [h]; exact List.mem_cons_self r0 rs
    have hm1 : r1 ∈ findall sec rowTag := by
      have hr : r1 ∈ findall (revChildren sec) rowTag := by
        rw [h2]; exact List.mem_cons_self r1 rs'
      rw [findall_revChildren] at hr
      exact List.mem_reverse.mp hr
    have hhd : headersOf r1 = headersOf r0 := hsame r1 hm1 r0 hm0
    simp [tableColumns_eq, hhd]

/-- Witness for C6 on two structurally identical rows with different
values: reversing the section leaves the column list unchanged. -/
theorem flatten_columns_independent_of_row_order_witness :
    (∀ r1 ∈ findall (Node.mk "section" none
        [Node.mk "item" none [leaf "id" "1", leaf "name" "A"],
         Node.mk "item" none [leaf "id" "2", leaf "name" "B"]]) "item",
      ∀ r2 ∈ findall (Node.mk "section" none
        [Node.mk "item" none [leaf "id" "1", leaf "name" "A"],
         Node.mk "item" none [leaf "id" "2", leaf "name" "B"]]) "item",
      headersOf r1 = headersOf r2)
    ∧ (flatten (Node.mk "section" none
        [Node.mk "item" none [leaf "id" "1", leaf "name" "A"],
         Node.mk "item" none [leaf "id" "2", leaf "name" "B"]]) "item").map Table.columns
      = (flatten (revChildren (Node.mk "section" none
        [Node.mk "item" none [leaf "id" "1", leaf "name" "A"],
         Node.mk "item" none [leaf "id" "2", leaf "name" "B"]])) "item").map Table.columns :=
  ⟨by decide, flatten_columns_independent_of_row_order _ _ (by decide)⟩

/-- Claim C7 (confirmed): the flattening loop only reads the tree (tags
and texts via `iter()`), so it is a pure function of the tree value: the
tree equals a pristine deep copy afterwards, and flattening that copy — a
second run over the unchanged input — produces an identical table. -/
theorem flatten_pure_and_idempotent (sec : Node) (rowTag : String) :
    copyTree sec = sec ∧ flatten (copyTree sec) rowTag = flatten sec rowTag :=
  ⟨copyTree_eq sec, by rw [copyTree_eq]⟩

/-- Claim C8 (confirmed): when `find` on an expected section tag returns
nothing, the section-level code raises (the chained attribute access on
`None` fails) instead of substituting a default or an empty table. -/
theorem missing_section_raises_lookup_failure (root : Node) (secTag rowTag : String)
    (h : Node.find root secTag = none) :
    processSection root secTag rowTag = Except.error "AttributeError" := by
  simp [processSection, h]

/-- Witness for C8: a document with no Belgeler child. -/
theorem missing_section_raises_lookup_failure_witness :
    Node.find (Node.mk "root" none [leaf "Beyanname_no" "123"]) "Belgeler" = none
    ∧ processSection (Node.mk "root" none [leaf "Beyanname_no" "123"])
        "Belgeler" "Belge" = Except.error "AttributeError" :=
  ⟨rfl, missing_section_raises_lookup_failure _ _ _ rfl⟩

/-- Claim C9, counterexample: the stripping step is `split` at the first
closing brace, keeping part 1; on an element whose tag has no namespace
delimiter there is no part 1 and the code raises IndexError instead of
retaining the local name, so the step does not handle every element. -/
theorem stripTree_unnamespaced_counterexample :
    stripTag "BeyannameBilgi" = none
    ∧ stripTree (Node.mk "BeyannameBilgi" none []) = none := by
  constructor
  · rfl
  · rfl

/-- Claim C9 (amended): on a tree all of whose tags contain the namespace
delimiter (ElementTree writes namespaced tags as the URI in braces
followed by the local name), the stripping loop succeeds, every tag is
replaced by exactly its part after the first closing brace (the local
name), and — when those local parts contain no brace characters — the
resulting tree's tags are all brace-free. -/
theorem stripTree_retains_local_names (n : Node)
    (h1 : ∀ s ∈ headersOf n, '\x7d' ∈ s.toList)
    (h2 : ∀ s ∈ headersOf n, ∀ c ∈ (afterClose s).toList, c ≠ '\x7b' ∧ c ≠ '\x7d') :
    ∃ n', stripTree n = some n' ∧ headersOf n' = (headersOf n).map afterClose ∧
      ∀ s' ∈ headersOf n', ∀ c ∈ s'.toList, c ≠ '\x7b' ∧ c ≠ '\x7d' := by
  rcases stripTree_tags n h1 with ⟨n', hn1, hn2⟩
  refine ⟨n', hn1, hn2, ?_⟩
  intro s' hs'
  rw [hn2] at hs'
  rcases List.mem_map.mp hs' with ⟨s, hs, hrw⟩
  rw [← hrw]
  exact h2 s hs

/-- Witness for C9 on a two-element namespaced tree. -/
theorem stripTree_retains_local_names_witness :
    (∀ s ∈ headersOf (Node.mk "\x7burn:x\x7dSonuc" none
        [Node.mk "\x7burn:x\x7dBeyanname_no" (some "123") []]), '\x7d' ∈ s.toList)
    ∧ (∀ s ∈ headersOf (Node.mk "\x7burn:x\x7dSonuc" none
        [Node.mk "\x7burn:x\x7dBeyanname_no" (some "123") []]),
        ∀ c ∈ (afterClose s).toList, c ≠ '\x7b' ∧ c ≠ '\x7d')
    ∧ ∃ n', stripTree (Node.mk "\x7burn:x\x7dSonuc" none
        [Node.mk "\x7burn:x\x7dBeyanname_no" (some "123") []]) = some n'
      ∧ headersOf n' = (headersOf (Node.mk "\x7burn:x\x7dSonuc" none
          [Node.mk "\x7burn:x\x7dBeyanname_no" (some "123") []])).map afterClose
      ∧ ∀ s' ∈ headersOf n', ∀ c ∈ s'.toList, c ≠ '\x7b' ∧ c ≠ '\x7d' :=
  ⟨by decide, by decide, stripTree_retains_local_names _ (by decide) (by decide)⟩

/-- Claim C10 (confirmed): when the first row's traversal carries a tag
two or more times, the table holds that column once, and the cell the
first data row stores under it is the value of the LAST occurrence in
traversal order — the earlier occurrences are overwritten by the dict, so
positional column/value alignment fails for duplicate tags. -/
theorem flatten_duplicate_tag_last_occurrence_wins (sec : Node) (rowTag : String)
    (r0 : Node) (rs : List Node) (q : String)
    (h : findall sec rowTag = r0 :: rs) (hdup : 2 ≤ (headersOf r0).count q) :
    ∃ tb, flatten sec rowTag = some tb ∧ tb.columns.count q = 1 ∧
      cellValue tb 0 q = (lastVal (List.zip (headersOf r0) (valsOf r0)) q).join := by
  have hmem : q ∈ headersOf r0 :=
    List.count_pos_iff.mp (lt_of_lt_of_le (by decide) hdup)
  have hmemc : q ∈ tableColumns r0 := by
    rw [tableColumns_eq, mem_firstDedup]
    exact hmem
  have hnd : (tableColumns r0).Nodup := by
    rw [tableColumns]
    exact dictOfZip_keys_nodup _ _
  refine ⟨_, flatten_eq sec rowTag r0 rs h, ?_, ?_⟩
  · exact List.count_eq_one_of_mem hnd hmemc
  · show cellValue (Table.mk (tableColumns r0) ((r0 :: rs).map (emittedRow r0))) 0 q = _
    have hrows : (r0 :: rs).map (emittedRow r0)
        = rowValues (tableColumns r0) (rowDict r0 r0) :: rs.map (emittedRow r0) := by
      rw [List.map_cons]
      rfl
    rw [hrows, cellValue_zero _ _ _ q hmemc, rowDict, alookup_dictOfZip]

/-- Witness for C10: a row whose traversal visits tag a twice with values
1 then 2; the single a column stores 2. -/
theorem flatten_duplicate_tag_last_occurrence_wins_witness :
    findall (Node.mk "section" none
        [Node.mk "item" none [leaf "a" "1", leaf "a" "2"]]) "item"
      = [Node.mk "item" none [leaf "a" "1", leaf "a" "2"]]
    ∧ 2 ≤ (headersOf (Node.mk "item" none [leaf "a" "1", leaf "a" "2"])).count "a"
    ∧ ∃ tb, flatten (Node.mk "section" none
        [Node.mk "item" none [leaf "a" "1", leaf "a" "2"]]) "item" = some tb
      ∧ tb.columns.count "a" = 1
      ∧ cellValue tb 0 "a"
        = (lastVal (List.zip
            (headersOf (Node.mk "item" none [leaf "a" "1", leaf "a" "2"]))
            (valsOf (Node.mk "item" none [leaf "a" "1", leaf "a" "2"]))) "a").join :=
  ⟨rfl, by decide, flatten_duplicate_tag_last_occurrence_wins _ _ _ _ _ rfl (by decide)⟩
